import Mathlib

/-!
# Verification of the MCP chatbot orchestration layer

Shallow embedding of `mcp.py`: the `MCPServer` dataclass, the `MCPManager`
process supervisor / protocol client / tool registry, and the
`LMStudioMCPChatbot` session orchestrator.  Child-process I/O is made
explicit: each spawned process is identified by a fresh `Nat` pid, and the
lines its stdout would deliver are passed in as an oracle (`Line` values,
classifying each `readline` result the way `json.loads` would).
-/

namespace MCP

/-- Python `str.startswith`, at the character level. -/
def startswith (s p : String) : Bool := p.data.isPrefixOf s.data

/-- A JSON value, as produced by `json.loads`.  Objects keep key order,
as Python dicts do. -/
inductive JVal where
  | null
  | bool (b : Bool)
  | num (n : Int)
  | str (s : String)
  | arr (items : List JVal)
  | obj (fields : List (String × JVal))

/-- Python dict assignment `d[k] = v` on an insertion-ordered assoc list:
update in place if present, else append. -/
def setKey {α : Type} : List (String × α) → String → α → List (String × α)
  | [], k, v => [(k, v)]
  | (k', v') :: t, k, v =>
      if k' = k then (k, v) :: t else (k', v') :: setKey t k v

/-- Python `del d[k]`. -/
def delKey {α : Type} : List (String × α) → String → List (String × α)
  | [], _ => []
  | (k', v') :: t, k => if k' = k then t else (k', v') :: delKey t k

/-- The `MCPServer` dataclass as declared: `args` and `env` default to
`None` (modelled by `Option`). -/
structure MCPServer where
  name : String
  command : List String
  args : Option (List String) := none
  env : Option (List (String × String)) := none
  description : String := ""

/-- `MCPServer.__post_init__`: replace a `None` `args` by `[]` and a `None`
`env` by `\x7b\x7d`.  The dataclass runs this on every construction. -/
def post_init (s : MCPServer) : MCPServer :=
  { s with args := some (s.args.getD []), env := some (s.env.getD []) }

/-- `server.command + server.args` as evaluated in `start_server`; adding
`None` to a list would raise `TypeError`, so the result is only defined
when `args` is a list. -/
def cmdOf (s : MCPServer) : Option (List String) :=
  s.args.map (fun a => s.command ++ a)

/-- `env.update(server.env)` as evaluated in `start_server`: overlay the
spec's variables onto a base environment; `update(None)` would raise
`TypeError`, so the result is only defined when `env` is a mapping. -/
def envOverlay (base : List (String × String)) (s : MCPServer) :
    Option (List (String × String)) :=
  s.env.map (fun e => e.foldl (fun b kv => setKey b kv.1 kv.2) base)

/-- One tool descriptor: a JSON object (assoc list), as stored verbatim
from the `tools/list` response. -/
def Tool : Type := List (String × JVal)

/-- Classification of one `process.stdout.readline()` result as
`json.loads` sees it: an empty line (EOF / no output, falsy in Python), a
non-empty line that fails to parse, or a line parsing to a JSON value. -/
inductive Line where
  | eof
  | malformed (s : String)
  | ok (v : JVal)

/-- Oracle for one `start_server` call: whether `subprocess.Popen`
succeeds, and the successive stdout lines the child serves during the
handshake. -/
structure SpawnEnv where
  popenOk : Bool
  stdout : List Line

/-- State of an `MCPManager` together with the observable process world:
`spawned` counts pids handed out so far (pids `0..spawned-1` exist), and
`terminated` records the pids that received `terminate()`. -/
structure MState where
  servers : List (String × MCPServer)
  active_connections : List (String × Nat)
  available_tools : List (String × List Tool)
  spawned : Nat
  terminated : List Nat

/-- `MCPManager.add_server`. -/
def add_server (st : MState) (s : MCPServer) : MState :=
  { st with servers := setKey st.servers s.name s }

/-- The guarded update of `_get_tools` applied to its response line: the
catalog entry is replaced exactly when the line parses to a dict with a
`result` key whose value is a dict with a `tools` key holding an array of
objects; every other outcome (empty line, parse error, shape mismatch,
which in Python either fails the `in` tests or raises into the
swallowing `except`) leaves the catalog untouched. -/
def get_tools_step (st : MState) (name : String) (resp : Line) : MState :=
  match resp with
  | .eof => st
  | .malformed _ => st
  | .ok v =>
    match v with
    | .obj fields =>
      match fields.lookup "result" with
      | some (.obj rfields) =>
        match rfields.lookup "tools" with
        | some (.arr items) =>
          match items.mapM (fun it => match it with
                             | .obj f => some (f : Tool)
                             | _ => none) with
          | some ts =>
              { st with available_tools := setKey st.available_tools name ts }
          | none => st
        | _ => st
      | _ => st
    | _ => st

/-- `MCPManager._initialize_server` (named `init_server` here): send the
`initialize` request, read one line; an empty line skips the tools step,
a parse error is caught and logged, and only a parsed reply proceeds to
the `tools/list` exchange, whose response is the next stdout line.  The
function never propagates a failure. -/
def init_server (st : MState) (name : String) (stdout : List Line) : MState :=
  match stdout with
  | [] => st
  | Line.eof :: _ => st
  | Line.malformed _ :: _ => st
  | Line.ok _ :: rest =>
    match rest with
    | [] => st
    | r :: _ => get_tools_step st name r

/-- `MCPManager.start_server`: unknown name fails; then the child env and
command list are built (raising, hence returning `False`, if `env` or
`args` were `None`); a failed spawn is caught and returns `False` with
nothing recorded; a successful spawn records a fresh pid under the name
(overwriting any prior entry without terminating its process) and runs
the handshake, whose failures are swallowed, so the call returns
`True`. -/
def start_server (st : MState) (name : String) (env : SpawnEnv) :
    Bool × MState :=
  match st.servers.lookup name with
  | none => (false, st)
  | some server =>
    match envOverlay [] server with
    | none => (false, st)
    | some _ =>
      match cmdOf server with
      | none => (false, st)
      | some _ =>
        if env.popenOk then
          let pid := st.spawned
          let st1 := { st with
            spawned := st.spawned + 1,
            active_connections := setKey st.active_connections name pid }
          (true, init_server st1 name env.stdout)
        else (false, st)

/-- `MCPManager.stop_server`: if a connection entry exists, `terminate()`
its process and delete the entry; otherwise do nothing.  The tool catalog
is not touched. -/
def stop_server (st : MState) (name : String) : MState :=
  match st.active_connections.lookup name with
  | some pid =>
      { st with
        terminated := st.terminated ++ [pid],
        active_connections := delKey st.active_connections name }
  | none => st

/-- `MCPManager.get_available_tools_list`: flatten the catalog, tagging
each tool object with its owning server under the `server` key. -/
def get_available_tools_list (st : MState) : List Tool :=
  (st.available_tools.map
    (fun p => p.2.map (fun t => setKey t "server" (JVal.str p.1)))).flatten

/-- Failure modes of `call_tool`: the guard exception
`Server ... not connected`, and the re-raised `json.JSONDecodeError`. -/
inductive CallErr where
  | notConnected (server : String)
  | decodeError

/-- `MCPManager.call_tool`: raise if the server has no recorded
connection; otherwise send the `tools/call` request and read one line.
An empty line falls through the `if response:` guard and returns `None`;
a malformed line raises a decode error out of the function; a parsed
line is returned verbatim. -/
def call_tool (st : MState) (name _tool : String)
    (_arguments : List (String × JVal)) (stdout : List Line) :
    Except CallErr (Option JVal) :=
  match st.active_connections.lookup name with
  | none => Except.error (CallErr.notConnected name)
  | some _ =>
    match stdout with
    | [] => Except.ok none
    | Line.eof :: _ => Except.ok none
    | Line.malformed _ :: _ => Except.error CallErr.decodeError
    | Line.ok v :: _ => Except.ok (some v)

/-- Pids that were spawned but are neither recorded in
`active_connections` nor ever sent `terminate()`: live child processes
the manager has lost track of. -/
def leakedPids (st : MState) : List Nat :=
  (List.range st.spawned).filter
    (fun p => !(st.terminated.contains p)
      && !((st.active_connections.map Prod.snd).contains p))

/-! ## The session orchestrator (`LMStudioMCPChatbot`) -/

/-- One conversation turn, the dict `\x7b"role": r, "content": c\x7d`. -/
structure Turn where
  role : String
  content : String
deriving DecidableEq

/-- The deterministic model collaborator behind `self.client`:
`models.list` (returning the model ids or raising), and
`chat.completions.create` in non-streaming form (the full content or an
exception) and streaming form (the ordered chunk deltas, each possibly
`None`, or an exception raised when issuing the request). -/
structure ModelClient where
  listModels : Except String (List String)
  complete : String → List Turn → Except String String
  streamChunks : String → List Turn → Except String (List (Option String))

/-- `LMStudioMCPChatbot.get_available_models`: the listed ids, or on any
exception the one-element in-band marker `["Error: ..."]`. -/
def get_available_models (c : ModelClient) : List String :=
  match c.listModels with
  | Except.ok ms => ms
  | Except.error e => ["Error: " ++ e]

/-- The message of the `RuntimeError` raised when no model is usable. -/
def noModelsMsg : String := "No models available in LM Studio"

/-- Python truthiness of the `model_name` argument: `None` and `""` are
both falsy in `if not model_name:`. -/
def truthyOpt (o : Option String) : Option String :=
  match o with
  | none => none
  | some s => if s = "" then none else some s

/-- The body of `chat` once a model name is fixed: issue the completion;
on success append one assistant turn and return the content, on an
exception return the error string with no turn appended. -/
def chatWith (c : ModelClient) (hist1 : List Turn) (m : String) :
    String × List Turn :=
  match c.complete m hist1 with
  | Except.ok content => (content, hist1 ++ [Turn.mk "assistant" content])
  | Except.error e => ("Error: " ++ e, hist1)

/-- `LMStudioMCPChatbot.chat`: append the user turn; resolve the model
(the explicit argument if truthy, else the first available model, the
`RuntimeError` being caught and returned as `"Error: ..."` when the list
is empty or starts with the error marker); then run the completion. -/
def chat (c : ModelClient) (hist : List Turn) (message : String)
    (model? : Option String) : String × List Turn :=
  let hist1 := hist ++ [Turn.mk "user" message]
  match truthyOpt model? with
  | some m => chatWith c hist1 m
  | none =>
    match get_available_models c with
    | [] => ("Error: " ++ noModelsMsg, hist1)
    | m :: _ =>
      if startswith m "Error" then ("Error: " ++ noModelsMsg, hist1)
      else chatWith c hist1 m

/-- Concatenation of a fragment list, the accumulator `full`. -/
def concatList : List String → String
  | [] => ""
  | s :: t => s ++ concatList t

/-- The deltas actually yielded by the streaming loop: `if delta:` drops
`None` and empty-string chunks both from the yields and from `full`. -/
def yieldsOf (ds : List (Option String)) : List String :=
  ds.filterMap (fun d =>
    match d with
    | some s => if s = "" then none else some s
    | none => none)

/-- The streaming loop of `stream_chat` once a model name is fixed,
observed by a consumer that performs `pulls` generator steps: an
exception while issuing the request is caught and yielded as one error
fragment; otherwise the consumer receives the first `pulls` yields, and
the single assistant turn (content `full`) is appended exactly when the
consumer steps past the last yield (running the code after the loop);
suspended at or before the last yield, nothing is committed. -/
def stream_body (c : ModelClient) (hist1 : List Turn) (m : String)
    (pulls : Nat) : List String × List Turn :=
  match c.streamChunks m hist1 with
  | Except.error e => (["Error: " ++ e], hist1)
  | Except.ok ds =>
    let ys := yieldsOf ds
    if pulls ≤ ys.length then (ys.take pulls, hist1)
    else (ys, hist1 ++ [Turn.mk "assistant" (concatList ys)])

/-- `LMStudioMCPChatbot.stream_chat` as a generator observed for `pulls`
steps.  With zero steps the body never runs, so not even the user turn is
appended; the first step appends the user turn and resolves the model
exactly as `chat` does (a failure there is caught and yielded as one
error fragment); then the streaming loop runs as in `stream_body`. -/
def stream_chat_run (c : ModelClient) (hist : List Turn) (message : String)
    (model? : Option String) (pulls : Nat) : List String × List Turn :=
  if pulls = 0 then ([], hist)
  else
    let hist1 := hist ++ [Turn.mk "user" message]
    match truthyOpt model? with
    | some m => stream_body c hist1 m pulls
    | none =>
      match get_available_models c with
      | [] => (["Error: " ++ noModelsMsg], hist1)
      | m :: _ =>
        if startswith m "Error" then (["Error: " ++ noModelsMsg], hist1)
        else stream_body c hist1 m pulls

/-! ## Conversation persistence (`save_conversation` / `load_conversation`)

`save_conversation` is `json.dump(self.conversation_history, fp, indent=2,
ensure_ascii=False)` and `load_conversation` is `json.load(fp)`.  The
history is a list of `\x7b"role": r, "content": c\x7d` dicts with string
fields.  We model the dump as the exact text `json.dump` emits for such a
document (two-space indentation, `ensure_ascii=False` so non-ASCII
characters are written raw, `"` `\` and control characters escaped), and
the load as a strict JSON reader restricted to this document shape
(whitespace-insensitive, accepting every JSON string escape the dump can
emit). -/

/-- Lowercase hex digit for `n < 16`, as `json.dump` writes `\u00XX`. -/
def hexDig (n : Nat) : Char :=
  if n < 10 then Char.ofNat (48 + n) else Char.ofNat (87 + n)

/-- Value of a hex digit accepted by the JSON reader. -/
def hexVal (c : Char) : Option Nat :=
  if 48 ≤ c.toNat ∧ c.toNat ≤ 57 then some (c.toNat - 48)
  else if 97 ≤ c.toNat ∧ c.toNat ≤ 102 then some (c.toNat - 87)
  else if 65 ≤ c.toNat ∧ c.toNat ≤ 70 then some (c.toNat - 55)
  else none

/-- `json.dump`'s escaping of one character inside a string literal
(`ensure_ascii=False`): `"` and `\` get a backslash, the five named
control escapes are used where they exist, every other control character
becomes `\u00XX`, and everything else is written raw. -/
def escChar (c : Char) : List Char :=
  if c = '"' then ['\\', '"']
  else if c = '\\' then ['\\', '\\']
  else if c = '\n' then ['\\', 'n']
  else if c = '\t' then ['\\', 't']
  else if c = '\r' then ['\\', 'r']
  else if c.toNat = 8 then ['\\', 'b']
  else if c.toNat = 12 then ['\\', 'f']
  else if c.toNat < 32 then
    ['\\', 'u', '0', '0', hexDig (c.toNat / 16), hexDig (c.toNat % 16)]
  else [c]

/-- Escape a whole string body. -/
def escString (s : List Char) : List Char := s.flatMap escChar

/-- A JSON string literal: quotes around the escaped body. -/
def quoteString (s : List Char) : List Char :=
  '"' :: (escString s ++ ['"'])

/-- One named escape of the JSON reader (after a backslash). -/
def unesc (c : Char) : Option Char :=
  if c = '"' then some '"'
  else if c = '\\' then some '\\'
  else if c = '/' then some '/'
  else if c = 'n' then some '\n'
  else if c = 't' then some '\t'
  else if c = 'r' then some '\r'
  else if c = 'b' then some (Char.ofNat 8)
  else if c = 'f' then some (Char.ofNat 12)
  else none

/-- JSON string-body reader, positioned just after the opening quote:
returns the decoded characters and the input following the closing
quote.  `json.load` is strict, so a raw control character is rejected. -/
def parseStrBody : List Char → Option (List Char × List Char)
  | [] => none
  | c :: rest =>
    if c = '"' then some ([], rest)
    else if c = '\\' then
      match rest with
      | [] => none
      | e :: rest2 =>
        if e = 'u' then
          match rest2 with
          | h1 :: h2 :: h3 :: h4 :: rest3 =>
            match hexVal h1, hexVal h2, hexVal h3, hexVal h4 with
            | some a, some b, some x, some y =>
              (fun p => (Char.ofNat (((a * 16 + b) * 16 + x) * 16 + y) :: p.1, p.2))
                <$> parseStrBody rest3
            | _, _, _, _ => none
          | _ => none
        else
          match unesc e with
          | some d => (fun p => (d :: p.1, p.2)) <$> parseStrBody rest2
          | none => none
    else if c.toNat < 32 then none
    else (fun p => (c :: p.1, p.2)) <$> parseStrBody rest

/-- JSON insignificant whitespace. -/
def isWs (c : Char) : Bool := c = ' ' || c = '\n' || c = '\t' || c = '\r'

/-- Skip insignificant whitespace. -/
def skipWs : List Char → List Char
  | [] => []
  | c :: rest => if isWs c then skipWs rest else c :: rest

/-- Read one JSON string literal after optional whitespace. -/
def parseQuoted (l : List Char) : Option (List Char × List Char) :=
  match skipWs l with
  | c :: rest => if c = '"' then parseStrBody rest else none
  | [] => none

/-- The text `json.dump(..., indent=2)` emits for one history item. -/
def printTurn (t : Turn) : List Char :=
  "  \x7b\n    ".data ++ quoteString "role".data ++ ": ".data
    ++ quoteString t.role.data ++ ",\n    ".data
    ++ quoteString "content".data ++ ": ".data
    ++ quoteString t.content.data ++ "\n  \x7d".data

/-- The text following the first item: `",\n"`-separated further items,
then the closing bracket on its own line. -/
def printRest : List Turn → List Char
  | [] => "\n]".data
  | t :: more => ",\n".data ++ printTurn t ++ printRest more

/-- The full document `json.dump(history, indent=2)` writes. -/
def printTurns (ts : List Turn) : List Char :=
  match ts with
  | [] => "[]".data
  | t :: more => "[\n".data ++ printTurn t ++ printRest more

/-- `LMStudioMCPChatbot.save_conversation`: the file's contents. -/
def save_conversation (hist : List Turn) : String :=
  String.mk (printTurns hist)

/-- Expect one punctuation character after optional whitespace. -/
def expectChar (c : Char) (l : List Char) : Option (List Char) :=
  match skipWs l with
  | c' :: r => if c' = c then some r else none
  | [] => none

/-- Read one history item: an object with exactly the keys `role` then
`content` (the insertion order every saved turn has), both strings. -/
def parseTurn (l : List Char) : Option (Turn × List Char) := do
  let l1 ← expectChar '\x7b' l
  let (key1, l2) ← parseQuoted l1
  if key1 = "role".data then
    let l3 ← expectChar ':' l2
    let (v1, l4) ← parseQuoted l3
    let l5 ← expectChar ',' l4
    let (key2, l6) ← parseQuoted l5
    if key2 = "content".data then
      let l7 ← expectChar ':' l6
      let (v2, l8) ← parseQuoted l7
      let l9 ← expectChar '\x7d' l8
      some (Turn.mk (String.mk v1) (String.mk v2), l9)
    else none
  else none

/-- Read the comma-separated items of a non-empty array up to the closing
bracket.  `fuel` bounds the recursion; each item consumes input, so the
document length suffices. -/
def parseTurnsAux : Nat → List Char → Option (List Turn × List Char)
  | 0, _ => none
  | fuel + 1, l =>
    match parseTurn l with
    | none => none
    | some (t, l1) =>
      match skipWs l1 with
      | ',' :: l2 => (fun p => (t :: p.1, p.2)) <$> parseTurnsAux fuel l2
      | c :: l2 => if c = ']' then some ([t], l2) else none
      | [] => none

/-- `LMStudioMCPChatbot.load_conversation`: parse the file as a JSON
array of role/content objects (the shape every saved history has),
requiring nothing but whitespace after it. -/
def load_conversation (s : String) : Option (List Turn) :=
  match expectChar '[' s.data with
  | none => none
  | some l1 =>
    match skipWs l1 with
    | c :: l2 =>
      if c = ']' then
        match skipWs l2 with
        | [] => some []
        | _ => none
      else
        match parseTurnsAux (s.data.length + 1) l1 with
        | some (ts, rest) =>
          (match skipWs rest with
           | [] => some ts
           | _ => none)
        | none => none
    | [] => none

/-! ## Concrete instances used in scenario theorems -/

/-- A registered server spec, as construction (with `__post_init__`)
produces it. -/
def specA : MCPServer := post_init (MCPServer.mk "A" ["cmd"] none none "")

/-- A manager that knows server `A` and has nothing running. -/
def startSt : MState := MState.mk [("A", specA)] [] [] 0 []

/-- A manager with server `A` connected as pid 0. -/
def connectedSt : MState := MState.mk [("A", specA)] [("A", 0)] [] 1 []

/-- One tool descriptor as stored from a `tools/list` reply. -/
def toolEcho : Tool := [("name", JVal.str "echo")]

/-- A manager with `A` connected and one tool registered for it. -/
def toolSt : MState := MState.mk [("A", specA)] [("A", 0)] [("A", [toolEcho])] 1 []

/-- A model collaborator whose listing raises. -/
def errClient : ModelClient :=
  ModelClient.mk (Except.error "conn refused")
    (fun _ _ => Except.ok "ignored") (fun _ _ => Except.ok [])

/-- A model collaborator exposing no models. -/
def emptyClient : ModelClient :=
  ModelClient.mk (Except.ok [])
    (fun _ _ => Except.ok "ignored") (fun _ _ => Except.ok [])

/-- A deterministic model stub: one model, full answer `"ab"`, streamed
as the chunk deltas `"a"`, `None`, `""`, `"b"`. -/
def stubClient : ModelClient :=
  ModelClient.mk (Except.ok ["m1"]) (fun _ _ => Except.ok "ab")
    (fun _ _ => Except.ok [some "a", none, some "", some "b"])

/-! ## Helper lemmas -/

theorem startswith_error (e : String) :
    startswith ("Error: " ++ e) "Error" = true := by
  simp only [startswith, String.data_append, List.isPrefixOf_iff_prefix]
  exact ⟨": ".data ++ e.data, rfl⟩

theorem startswith_error_colon (e : String) :
    startswith ("Error: " ++ e) "Error:" = true := by
  simp only [startswith, String.data_append, List.isPrefixOf_iff_prefix]
  exact ⟨" ".data ++ e.data, rfl⟩

/-! ## Claim theorems (session orchestrator) -/

/-- C9: every constructed `MCPServer` (the dataclass `__init__` runs
`__post_init__`) has a concrete, possibly empty, `args` list and `env`
mapping — never `None` — so the `command + args` concatenation and the
`env.update` overlay evaluated by `start_server` are always defined. -/
theorem C9_post_init_defined (s : MCPServer) :
    (post_init s).args = some (s.args.getD [])
    ∧ (post_init s).env = some (s.env.getD [])
    ∧ cmdOf (post_init s) = some (s.command ++ s.args.getD [])
    ∧ ∀ base, (envOverlay base (post_init s)).isSome = true :=
  ⟨rfl, rfl, rfl, fun _ => rfl⟩

/-- C7: `start_server` on a name absent from the registered specs
reports failure (`False`, after logging the unknown-server error) and
returns with the whole state unchanged: no process is spawned and the
connection map is untouched. -/
theorem C7_unknown_server (st : MState) (name : String) (env : SpawnEnv)
    (h : st.servers.lookup name = none) :
    start_server st name env = (false, st) := by
  simp [start_server, h]

theorem C7_unknown_server_witness :
    (MState.mk [("A", specA)] [] [] 0 []).servers.lookup "ghost" = none
    ∧ start_server (MState.mk [("A", specA)] [] [] 0 []) "ghost"
        (SpawnEnv.mk true []) = (false, MState.mk [("A", specA)] [] [] 0 []) :=
  ⟨rfl, C7_unknown_server _ _ _ rfl⟩

/-- C5: `chat(message)` with no model name, against an empty or erroring
model listing, returns the caught no-model error string and leaves the
history equal to the prior history with exactly the user turn appended
(no assistant turn). -/
theorem C5_no_model (c : ModelClient) (hist : List Turn) (msg : String)
    (h : (∃ e, c.listModels = Except.error e) ∨ c.listModels = Except.ok []) :
    chat c hist msg none
      = ("Error: " ++ noModelsMsg, hist ++ [Turn.mk "user" msg]) := by
  rcases h with ⟨e, he⟩ | he
  · simp [chat, truthyOpt, get_available_models, he, startswith_error]
  · simp [chat, truthyOpt, get_available_models, he]

theorem C5_no_model_witness :
    ((∃ e, errClient.listModels = Except.error e)
      ∨ errClient.listModels = Except.ok [])
    ∧ chat errClient [] "hello" none
        = ("Error: " ++ noModelsMsg, [Turn.mk "user" "hello"]) :=
  ⟨Or.inl ⟨"conn refused", rfl⟩,
   C5_no_model errClient [] "hello" (Or.inl ⟨"conn refused", rfl⟩)⟩

/-- C10: `get_available_models` converts a listing failure into the
in-band one-element marker `["Error: ..."]` (a list of length one whose
element starts with `Error:`), and `chat` / `stream_chat` detect the
no-model condition exactly by that marker: an empty list or a first
element starting with `Error` takes the error path, anything else
resolves the first listed model and proceeds. -/
theorem C10_in_band_marker (c : ModelClient) (e : String) (av : List String)
    (hist : List Turn) (msg : String) :
    (c.listModels = Except.error e →
        get_available_models c = ["Error: " ++ e]
      ∧ (get_available_models c).length = 1
      ∧ startswith (get_available_models c).headI "Error:" = true)
  ∧ (c.listModels = Except.ok av →
      ((av = [] ∨ startswith av.headI "Error" = true) →
          chat c hist msg none
            = ("Error: " ++ noModelsMsg, hist ++ [Turn.mk "user" msg])
        ∧ stream_chat_run c hist msg none 1
            = (["Error: " ++ noModelsMsg], hist ++ [Turn.mk "user" msg]))
      ∧ (∀ m rest, av = m :: rest → startswith m "Error" = false →
          chat c hist msg none = chatWith c (hist ++ [Turn.mk "user" msg]) m
        ∧ stream_chat_run c hist msg none 1
            = stream_body c (hist ++ [Turn.mk "user" msg]) m 1)) := by
  constructor
  · intro he
    refine ⟨?_, ?_, ?_⟩ <;>
      simp [get_available_models, he, startswith_error_colon]
  · intro hok
    constructor
    · intro hbad
      cases av with
      | nil =>
        constructor <;>
          simp [chat, stream_chat_run, truthyOpt, get_available_models, hok]
      | cons m rest =>
        have hmark : startswith m "Error" = true := by
          rcases hbad with h | h
          · exact absurd h (by simp)
          · simpa [List.headI] using h
        constructor <;>
          simp [chat, stream_chat_run, truthyOpt, get_available_models, hok,
            hmark]
    · rintro m rest rfl hm
      constructor <;>
        simp [chat, stream_chat_run, truthyOpt, get_available_models, hok, hm]

theorem C10_in_band_marker_witness :
    (get_available_models errClient = ["Error: conn refused"]
      ∧ (get_available_models errClient).length = 1
      ∧ startswith (get_available_models errClient).headI "Error:" = true)
    ∧ (chat emptyClient [] "hi" none
        = ("Error: " ++ noModelsMsg, [Turn.mk "user" "hi"]))
    ∧ chat stubClient [] "hi" none
        = chatWith stubClient [Turn.mk "user" "hi"] "m1" :=
  ⟨(C10_in_band_marker errClient "conn refused" [] [] "hi").1 rfl,
   (((C10_in_band_marker emptyClient "x" [] [] "hi").2 rfl).1
      (Or.inl rfl)).1,
   ((((C10_in_band_marker stubClient "x" ["m1"] [] "hi").2 rfl).2
      "m1" [] rfl) rfl).1⟩

/-! ## Claim theorems (process supervisor / protocol client) -/

/-- C1: the claim fails on the code.  Starting `A` twice, both spawns
succeeding, yields `True` both times, yet the first child (pid 0) is
recorded nowhere, was never sent `terminate()`, and is left leaked: the
second `start_server` overwrote the connection entry without stopping
the prior live process. -/
theorem C1_double_start_leaks :
    (start_server startSt "A" (SpawnEnv.mk true [])).1 = true
    ∧ (start_server (start_server startSt "A" (SpawnEnv.mk true [])).2 "A"
        (SpawnEnv.mk true [])).1 = true
    ∧ (start_server (start_server startSt "A" (SpawnEnv.mk true [])).2 "A"
        (SpawnEnv.mk true [])).2.active_connections = [("A", 1)]
    ∧ (start_server (start_server startSt "A" (SpawnEnv.mk true [])).2 "A"
        (SpawnEnv.mk true [])).2.terminated = []
    ∧ leakedPids (start_server (start_server startSt "A"
        (SpawnEnv.mk true [])).2 "A" (SpawnEnv.mk true [])).2 = [0] :=
  ⟨rfl, rfl, rfl, rfl, rfl⟩

/-- C2 counterexample: the claim as stated fails on the code.  With the
spawn succeeding and the `init` reply missing (empty line) or malformed,
`start_server` still reports success. -/
theorem C2_counterexample :
    (start_server startSt "A" (SpawnEnv.mk true [Line.eof])).1 = true
    ∧ (start_server startSt "A"
        (SpawnEnv.mk true [Line.malformed "not json"])).1 = true :=
  ⟨rfl, rfl⟩

/-- C2 amended: a missing or malformed `init` reply is swallowed
(logged inside `_init_server`), the `tools/list` step is skipped, so the
tool catalog is unchanged, and `start_server` still reports success. -/
theorem C2_handshake_failure_swallowed (st : MState) (name : String)
    (sv : MCPServer) (env : SpawnEnv)
    (hreg : st.servers.lookup name = some sv)
    (hargs : sv.args.isSome = true) (henv : sv.env.isSome = true)
    (hok : env.popenOk = true)
    (hbad : env.stdout = [] ∨ (∃ r, env.stdout = Line.eof :: r)
      ∨ (∃ s r, env.stdout = Line.malformed s :: r)) :
    (start_server st name env).1 = true
    ∧ ((start_server st name env).2).available_tools = st.available_tools := by
  obtain ⟨ev, hev⟩ := Option.isSome_iff_exists.mp henv
  obtain ⟨av, hav⟩ := Option.isSome_iff_exists.mp hargs
  rcases hbad with h | ⟨r, h⟩ | ⟨s, r, h⟩ <;>
    constructor <;>
      simp [start_server, init_server, hreg, envOverlay, cmdOf, hev, hav,
        hok, h]

theorem C2_handshake_failure_swallowed_witness :
    startSt.servers.lookup "A" = some specA
    ∧ specA.args.isSome = true ∧ specA.env.isSome = true
    ∧ (SpawnEnv.mk true [Line.eof]).popenOk = true
    ∧ ((SpawnEnv.mk true [Line.eof]).stdout = []
        ∨ (∃ r, (SpawnEnv.mk true [Line.eof]).stdout = Line.eof :: r)
        ∨ (∃ s r,
            (SpawnEnv.mk true [Line.eof]).stdout = Line.malformed s :: r))
    ∧ (start_server startSt "A" (SpawnEnv.mk true [Line.eof])).1 = true
    ∧ ((start_server startSt "A" (SpawnEnv.mk true [Line.eof])).2
        ).available_tools = startSt.available_tools :=
  ⟨rfl, rfl, rfl, rfl, Or.inr (Or.inl ⟨[], rfl⟩),
   C2_handshake_failure_swallowed startSt "A" specA _ rfl rfl rfl rfl
     (Or.inr (Or.inl ⟨[], rfl⟩))⟩

/-- C3 counterexample: the claim as stated fails on the code.  On a
connected server, a missing/empty response line makes `call_tool` fall
through its `if response:` guard and return `None` — a non-error result,
not a `ProtocolError`. -/
theorem C3_counterexample :
    call_tool connectedSt "A" "echo" [] [Line.eof] = Except.ok none
    ∧ call_tool connectedSt "A" "echo" [] [] = Except.ok none :=
  ⟨rfl, rfl⟩

/-- C3 amended: `call_tool` on a server with no running process fails
with the server-not-connected error (that part of the claim holds), but
on a connected server a missing or empty response line yields the
non-error result `None` rather than a protocol error. -/
theorem C3_missing_line_returns_none (st : MState) (name tool : String)
    (args : List (String × JVal)) (out : List Line) :
    (st.active_connections.lookup name = none →
        call_tool st name tool args out
          = Except.error (CallErr.notConnected name))
    ∧ (st.active_connections.lookup name ≠ none →
        (out = [] ∨ (∃ r, out = Line.eof :: r)) →
        call_tool st name tool args out = Except.ok none) := by
  constructor
  · intro h
    simp [call_tool, h]
  · intro h hout
    cases hpid : st.active_connections.lookup name with
    | none => exact absurd hpid h
    | some pid =>
      rcases hout with rfl | ⟨r, rfl⟩ <;> simp [call_tool, hpid]

theorem C3_missing_line_returns_none_witness :
    call_tool (MState.mk [("A", specA)] [] [] 0 []) "A" "echo" [] []
      = Except.error (CallErr.notConnected "A")
    ∧ call_tool connectedSt "A" "echo" [] [Line.eof] = Except.ok none :=
  ⟨(C3_missing_line_returns_none (MState.mk [("A", specA)] [] [] 0 [])
      "A" "echo" [] []).1 rfl,
   (C3_missing_line_returns_none connectedSt "A" "echo" [] [Line.eof]).2
      (by decide) (Or.inr ⟨[], rfl⟩)⟩

/-- The falsy deltas the streaming loop skips contribute nothing to the
concatenation: `full` equals the concatenation of all chunk contents. -/
theorem concatList_yieldsOf (ds : List (Option String)) :
    concatList (yieldsOf ds) = concatList (ds.map (fun d => d.getD "")) := by
  induction ds with
  | nil => rfl
  | cons d t ih =>
    cases d with
    | none => simpa [yieldsOf, concatList] using ih
    | some s =>
      by_cases hs : s = ""
      · subst hs
        simpa [yieldsOf, concatList] using ih
      · simp only [yieldsOf, List.filterMap_cons, List.map_cons, hs,
          if_neg hs, concatList, Option.getD_some] at ih ⊢
        rw [ih]

/-- C6: against a deterministic model collaborator (streamed chunks
concatenate to the non-streaming answer), the concatenation of all
fragments `stream_chat` yields equals the text `chat` returns for the
same request; draining the stream commits exactly one assistant turn
whose content is that concatenation, while a consumer that abandons the
stream at or before the last fragment commits no assistant turn at
all. -/
theorem C6_stream_matches_chat (c : ModelClient) (hist : List Turn)
    (msg m content : String) (ds : List (Option String))
    (hm : m ≠ "")
    (hcomp : c.complete m (hist ++ [Turn.mk "user" msg])
      = Except.ok content)
    (hstream : c.streamChunks m (hist ++ [Turn.mk "user" msg])
      = Except.ok ds)
    (hdet : concatList (ds.map (fun d => d.getD "")) = content) :
    concatList
        (stream_chat_run c hist msg (some m) ((yieldsOf ds).length + 1)).1
      = (chat c hist msg (some m)).1
    ∧ (stream_chat_run c hist msg (some m) ((yieldsOf ds).length + 1)).2
        = hist ++ [Turn.mk "user" msg, Turn.mk "assistant" content]
    ∧ ∀ pulls, pulls ≤ (yieldsOf ds).length →
        (stream_chat_run c hist msg (some m) pulls).2 = hist
        ∨ (stream_chat_run c hist msg (some m) pulls).2
            = hist ++ [Turn.mk "user" msg] := by
  have hfull : concatList (yieldsOf ds) = content :=
    (concatList_yieldsOf ds).trans hdet
  refine ⟨?_, ?_, ?_⟩
  · simp [stream_chat_run, stream_body, chat, chatWith, truthyOpt, hm,
      hcomp, hstream, hfull]
  · simp [stream_chat_run, stream_body, truthyOpt, hm, hstream, hfull]
  · intro pulls hp
    cases pulls with
    | zero => exact Or.inl (by simp [stream_chat_run])
    | succ k =>
      refine Or.inr ?_
      simp [stream_chat_run, stream_body, truthyOpt, hm, hstream,
        Nat.succ_le_of_lt, hp]

theorem C6_stream_matches_chat_witness :
    ("m1" : String) ≠ ""
    ∧ stubClient.complete "m1" [Turn.mk "user" "hi"] = Except.ok "ab"
    ∧ stubClient.streamChunks "m1" [Turn.mk "user" "hi"]
        = Except.ok [some "a", none, some "", some "b"]
    ∧ concatList ([some "a", none, some "", some "b"].map
        (fun d => d.getD "")) = "ab"
    ∧ concatList (stream_chat_run stubClient [] "hi" (some "m1") 3).1
        = (chat stubClient [] "hi" (some "m1")).1
    ∧ (stream_chat_run stubClient [] "hi" (some "m1") 3).2
        = [Turn.mk "user" "hi", Turn.mk "assistant" "ab"]
    ∧ ∀ pulls, pulls ≤ 2 →
        (stream_chat_run stubClient [] "hi" (some "m1") pulls).2 = []
        ∨ (stream_chat_run stubClient [] "hi" (some "m1") pulls).2
            = [Turn.mk "user" "hi"] := by
  have h := C6_stream_matches_chat stubClient [] "hi" "m1" "ab"
    [some "a", none, some "", some "b"] (by decide) rfl rfl rfl
  exact ⟨by decide, rfl, rfl, rfl, h.1, h.2.1, h.2.2⟩

/-- C4: the claim fails on the code.  `stop_server` terminates the
process and deletes the connection entry, but leaves the tool catalog
untouched, so the aggregated tool list still offers the stopped
server's descriptors. -/
theorem C4_stale_tools_still_offered :
    (stop_server toolSt "A").active_connections = []
    ∧ (stop_server toolSt "A").terminated = [0]
    ∧ get_available_tools_list (stop_server toolSt "A")
        = [[("name", JVal.str "echo"), ("server", JVal.str "A")]] :=
  ⟨rfl, rfl, rfl⟩

/-! ## Round-trip of conversation persistence (C8) -/

theorem hexVal_hexDig : ∀ n, n < 16 → hexVal (hexDig n) = some n := by
  decide

/-- Reading a `\u00XX` escape recovers the escaped control character. -/
theorem parseStrBody_u (c : Char) (l : List Char) (hc : c.toNat < 32) :
    parseStrBody ('\\' :: 'u' :: '0' :: '0' ::
        hexDig (c.toNat / 16) :: hexDig (c.toNat % 16) :: l)
      = (fun p => (c :: p.1, p.2)) <$> parseStrBody l := by
  have h1 : c.toNat / 16 < 16 := by omega
  have h2 : c.toNat % 16 < 16 := Nat.mod_lt _ (by omega)
  have e0 : hexVal '0' = some 0 := by decide
  have e1 := hexVal_hexDig _ h1
  have e2 := hexVal_hexDig _ h2
  have hn : ((0 * 16 + 0) * 16 + c.toNat / 16) * 16 + c.toNat % 16
      = c.toNat := by omega
  have hn2 : c.toNat / 16 * 16 + c.toNat % 16 = c.toNat := by omega
  rw [parseStrBody.eq_def]
  simp [e0, e1, e2, hn, hn2, Char.ofNat_toNat]

/-- Reading an escaped string body recovers the original string: the
reader consumes exactly the characters the writer emitted, decodes each
escape back to its character, and stops at the closing quote. -/
theorem parseStrBody_esc (s rest : List Char) :
    parseStrBody (escString s ++ '"' :: rest) = some (s, rest) := by
  induction s with
  | nil =>
    rw [escString, parseStrBody.eq_def]
    simp
  | cons c t ih =>
    have hsplit : escString (c :: t) ++ '"' :: rest
        = escChar c ++ (escString t ++ '"' :: rest) := by
      simp [escString]
    rw [hsplit]
    by_cases h1 : c = '"'
    · subst h1
      rw [show escChar '"' = ['\\', '"'] from rfl]
      rw [List.cons_append, List.cons_append, List.nil_append,
        parseStrBody.eq_def]
      simp [unesc, ih]
    · by_cases h2 : c = '\\'
      · subst h2
        rw [show escChar '\\' = ['\\', '\\'] from rfl]
        rw [List.cons_append, List.cons_append, List.nil_append,
          parseStrBody.eq_def]
        simp [unesc, ih]
      · by_cases h3 : c = '\n'
        · subst h3
          rw [show escChar '\n' = ['\\', 'n'] from rfl]
          rw [List.cons_append, List.cons_append, List.nil_append,
            parseStrBody.eq_def]
          simp [unesc, ih]
        · by_cases h4 : c = '\t'
          · subst h4
            rw [show escChar '\t' = ['\\', 't'] from rfl]
            rw [List.cons_append, List.cons_append, List.nil_append,
              parseStrBody.eq_def]
            simp [unesc, ih]
          · by_cases h5 : c = '\r'
            · subst h5
              rw [show escChar '\r' = ['\\', 'r'] from rfl]
              rw [List.cons_append, List.cons_append, List.nil_append,
                parseStrBody.eq_def]
              simp [unesc, ih]
            · by_cases h6 : c.toNat = 8
              · have hc : Char.ofNat 8 = c := by
                  rw [← h6, Char.ofNat_toNat]
                have hchunk : escChar c = ['\\', 'b'] := by
                  simp [escChar, h1, h2, h3, h4, h5, h6]
                rw [hchunk, List.cons_append, List.cons_append,
                  List.nil_append, parseStrBody.eq_def]
                simp [unesc, ih, hc.symm]
              · by_cases h7 : c.toNat = 12
                · have hc : Char.ofNat 12 = c := by
                    rw [← h7, Char.ofNat_toNat]
                  have hchunk : escChar c = ['\\', 'f'] := by
                    simp [escChar, h1, h2, h3, h4, h5, h6, h7]
                  rw [hchunk, List.cons_append, List.cons_append,
                    List.nil_append, parseStrBody.eq_def]
                  simp [unesc, ih, hc.symm]
                · by_cases h8 : c.toNat < 32
                  · have hchunk : escChar c = ['\\', 'u', '0', '0',
                        hexDig (c.toNat / 16), hexDig (c.toNat % 16)] := by
                      simp [escChar, h1, h2, h3, h4, h5, h6, h7, h8]
                    rw [hchunk]
                    simp only [List.cons_append, List.nil_append]
                    rw [parseStrBody_u c _ h8]
                    simp [ih]
                  · have hchunk : escChar c = [c] := by
                      simp [escChar, h1, h2, h3, h4, h5, h6, h7, h8]
                    rw [hchunk]
                    simp only [List.cons_append, List.nil_append]
                    rw [parseStrBody.eq_def]
                    simp [h1, h2, h8, ih]

theorem skipWs_ws (c : Char) (h : isWs c = true) (l : List Char) :
    skipWs (c :: l) = skipWs l := by
  rw [skipWs.eq_def]
  simp [h]

theorem skipWs_not (c : Char) (h : isWs c = false) (l : List Char) :
    skipWs (c :: l) = c :: l := by
  rw [skipWs.eq_def]
  simp [h]

theorem parseQuoted_ws (c : Char) (h : isWs c = true) (l : List Char) :
    parseQuoted (c :: l) = parseQuoted l := by
  simp [parseQuoted, skipWs_ws c h l]

/-- Reading a written string literal recovers the string. -/
theorem parseQuoted_at (s rest : List Char) :
    parseQuoted (quoteString s ++ rest) = some (s, rest) := by
  have hsplit : quoteString s ++ rest
      = '"' :: (escString s ++ '"' :: rest) := by
    simp [quoteString]
  rw [hsplit]
  simp [parseQuoted, skipWs_not '"' (by decide), parseStrBody_esc]

theorem expectChar_ws (w : Char) (hw : isWs w = true) (c : Char)
    (l : List Char) : expectChar c (w :: l) = expectChar c l := by
  simp [expectChar, skipWs_ws w hw l]

theorem expectChar_at (c : Char) (hc : isWs c = false) (l : List Char) :
    expectChar c (c :: l) = some l := by
  simp [expectChar, skipWs_not c hc l]

/-- The written form of one history item, reassociated into the shape
the reader consumes it in. -/
theorem printTurn_shape (t : Turn) (rest : List Char) :
    printTurn t ++ rest
      = ' ' :: ' ' :: '\x7b' :: '\n' :: ' ' :: ' ' :: ' ' :: ' ' ::
        (quoteString "role".data ++ (':' :: ' ' ::
          (quoteString t.role.data ++ (',' :: '\n' :: ' ' :: ' ' :: ' ' ::
            ' ' :: (quoteString "content".data ++ (':' :: ' ' ::
              (quoteString t.content.data ++
                ('\n' :: ' ' :: ' ' :: '\x7d' :: rest)))))))) := by
  have e1 : "  \x7b\n    ".data
      = [' ', ' ', '\x7b', '\n', ' ', ' ', ' ', ' '] := rfl
  have e2 : ": ".data = [':', ' '] := rfl
  have e3 : ",\n    ".data = [',', '\n', ' ', ' ', ' ', ' '] := rfl
  have e4 : "\n  \x7d".data = ['\n', ' ', ' ', '\x7d'] := rfl
  simp only [printTurn, e1, e2, e3, e4, List.append_assoc,
    List.cons_append, List.nil_append]

/-- Reading one written history item recovers the turn. -/
theorem parseTurn_print (t : Turn) (rest : List Char) :
    parseTurn (printTurn t ++ rest) = some (t, rest) := by
  rw [printTurn_shape]
  simp [parseTurn,
    expectChar_ws ' ' (by decide), expectChar_ws '\n' (by decide),
    expectChar_at '\x7b' (by decide), expectChar_at ':' (by decide),
    expectChar_at ',' (by decide), expectChar_at '\x7d' (by decide),
    parseQuoted_ws ' ' (by decide), parseQuoted_ws '\n' (by decide),
    parseQuoted_at]

theorem parseTurn_ws (c : Char) (h : isWs c = true) (l : List Char) :
    parseTurn (c :: l) = parseTurn l := by
  simp [parseTurn, expectChar_ws c h]

theorem parseTurnsAux_succ (f : Nat) (l : List Char) :
    parseTurnsAux (f + 1) l
      = match parseTurn l with
        | none => none
        | some (t, l1) =>
          match skipWs l1 with
          | ',' :: l2 => (fun p => (t :: p.1, p.2)) <$> parseTurnsAux f l2
          | c :: l2 => if c = ']' then some ([t], l2) else none
          | [] => none := rfl

theorem parseTurnsAux_ws (c : Char) (h : isWs c = true) (fuel : Nat)
    (l : List Char) :
    parseTurnsAux fuel (c :: l) = parseTurnsAux fuel l := by
  cases fuel with
  | zero => rfl
  | succ f =>
    rw [parseTurnsAux_succ, parseTurnsAux_succ, parseTurn_ws c h]

/-- Reading the written items of a non-empty history recovers the
items, consuming the closing bracket. -/
theorem parseTurnsAux_print (more : List Turn) :
    ∀ fuel : Nat, more.length + 1 ≤ fuel →
    ∀ (t : Turn) (rest : List Char),
    parseTurnsAux fuel (printTurn t ++ (printRest more ++ rest))
      = some (t :: more, rest) := by
  induction more with
  | nil =>
    intro fuel hf t rest
    cases fuel with
    | zero => omega
    | succ f =>
      have hrest : printRest [] ++ rest = '\n' :: ']' :: rest := rfl
      rw [hrest, parseTurnsAux_succ, parseTurn_print]
      simp [skipWs_ws '\n' (by decide), skipWs_not ']' (by decide)]
  | cons t2 more2 ih =>
    intro fuel hf t rest
    cases fuel with
    | zero => omega
    | succ f =>
      have hf2 : more2.length + 1 ≤ f := by
        simp only [List.length_cons] at hf
        omega
      have hrest : printRest (t2 :: more2) ++ rest
          = ',' :: '\n' :: (printTurn t2 ++ (printRest more2 ++ rest)) := by
        simp [printRest]
      rw [hrest, parseTurnsAux_succ, parseTurn_print]
      simp [skipWs_not ',' (by decide), parseTurnsAux_ws '\n' (by decide),
        ih f hf2]

theorem printRest_length (ts : List Turn) :
    ts.length ≤ (printRest ts).length := by
  induction ts with
  | nil => simp [printRest]
  | cons t m ih =>
    simp only [printRest, List.length_cons, List.length_append]
    omega

/-- C8: saving a conversation history to a file and loading it back
yields the identical ordered sequence of turns. -/
theorem C8_save_load_roundtrip (hist : List Turn) :
    load_conversation (save_conversation hist) = some hist := by
  cases hist with
  | nil => rfl
  | cons t more =>
    have hdata : (save_conversation (t :: more)).data
        = '[' :: '\n' :: (printTurn t ++ printRest more) := rfl
    have hlen : more.length + 1
        ≤ (save_conversation (t :: more)).data.length + 1 := by
      have h1 := printRest_length more
      have h2 : (save_conversation (t :: more)).data.length
          = 2 + (printTurn t).length + (printRest more).length := by
        rw [hdata]
        simp [List.length_append]
        omega
      omega
    have hmain := parseTurnsAux_print more
      ((save_conversation (t :: more)).data.length + 1) hlen t []
    rw [List.append_nil] at hmain
    have hshape := printTurn_shape t (printRest more)
    rw [hdata] at hmain
    rw [hshape] at hmain
    simp only [load_conversation, hdata, expectChar_at '[' (by decide),
      hshape, skipWs_ws '\n' (by decide), skipWs_ws ' ' (by decide),
      skipWs_not '\x7b' (by decide),
      parseTurnsAux_ws '\n' (by decide), hmain]
    simp [skipWs]

end MCP
